import Mathlib

/-
Verification of src/back_end/two_marker_detect.py against its specification.

The Python module computes the physical (height, width) of a window from the
pixel corner coordinates of two fiducial markers of known physical size.
Floating-point values are modelled as real numbers; the integer pixel
coordinates produced by Python round() are modelled as integers.
-/

namespace TwoMarker

/-- A detected marker: its four corner points in pixel coordinates, in the
detector's cyclic order (corners[i][0] lists in the source). -/
structure Marker where
  c0 : ℝ × ℝ
  c1 : ℝ × ℝ
  c2 : ℝ × ℝ
  c3 : ℝ × ℝ

/-- The two diagonal placements accepted by get_diff_two_markers_px
("TLBR" and "TRBL" literals in the source). -/
inductive Diag where
  | TLBR : Diag
  | TRBL : Diag
deriving DecidableEq

/-- Python min over a list of integers (the source only applies it to
nonempty lists; the empty-list default 0 is never reached there). -/
def minD : List ℤ → ℤ
  | [] => 0
  | x :: xs => xs.foldl min x

/-- Python max over a list of integers (the source only applies it to
nonempty lists; the empty-list default 0 is never reached there). -/
def maxD : List ℤ → ℤ
  | [] => 0
  | x :: xs => xs.foldl max x

theorem foldl_min_le_init (xs : List ℤ) (a : ℤ) : xs.foldl min a ≤ a := by
  induction xs generalizing a with
  | nil => simp
  | cons x xs ih => exact le_trans (ih (min a x)) (min_le_left a x)

theorem foldl_min_le (xs : List ℤ) (a : ℤ) {y : ℤ} (hy : y ∈ xs) : xs.foldl min a ≤ y := by
  induction xs generalizing a with
  | nil => cases hy
  | cons x xs ih =>
    rcases List.mem_cons.1 hy with h | h
    · subst h
      exact le_trans (foldl_min_le_init xs (min a y)) (min_le_right a y)
    · exact ih (min a x) h

theorem foldl_min_mem (xs : List ℤ) (a : ℤ) : xs.foldl min a = a ∨ xs.foldl min a ∈ xs := by
  induction xs generalizing a with
  | nil => exact Or.inl rfl
  | cons x xs ih =>
    rcases ih (min a x) with h | h
    · rcases min_choice a x with h2 | h2
      · exact Or.inl (by rw [List.foldl_cons, h, h2])
      · exact Or.inr (by rw [List.foldl_cons, h, h2]; exact List.mem_cons_self x xs)
    · exact Or.inr (List.mem_cons_of_mem x h)

theorem le_foldl_min {b : ℤ} (xs : List ℤ) (a : ℤ) (hb : b ≤ a) (h : ∀ y ∈ xs, b ≤ y) :
    b ≤ xs.foldl min a := by
  induction xs generalizing a with
  | nil => exact hb
  | cons x xs ih =>
    exact ih (min a x) (le_min hb (h x (List.mem_cons_self x xs)))
      (fun y hy => h y (List.mem_cons_of_mem x hy))

theorem foldl_max_init_le (xs : List ℤ) (a : ℤ) : a ≤ xs.foldl max a := by
  induction xs generalizing a with
  | nil => simp
  | cons x xs ih => exact le_trans (le_max_left a x) (ih (max a x))

theorem le_foldl_max (xs : List ℤ) (a : ℤ) {y : ℤ} (hy : y ∈ xs) : y ≤ xs.foldl max a := by
  induction xs generalizing a with
  | nil => cases hy
  | cons x xs ih =>
    rcases List.mem_cons.1 hy with h | h
    · subst h
      exact le_trans (le_max_right a y) (foldl_max_init_le xs (max a y))
    · exact ih (max a x) h

theorem foldl_max_mem (xs : List ℤ) (a : ℤ) : xs.foldl max a = a ∨ xs.foldl max a ∈ xs := by
  induction xs generalizing a with
  | nil => exact Or.inl rfl
  | cons x xs ih =>
    rcases ih (max a x) with h | h
    · rcases max_choice a x with h2 | h2
      · exact Or.inl (by rw [List.foldl_cons, h, h2])
      · exact Or.inr (by rw [List.foldl_cons, h, h2]; exact List.mem_cons_self x xs)
    · exact Or.inr (List.mem_cons_of_mem x h)

theorem foldl_max_le {b : ℤ} (xs : List ℤ) (a : ℤ) (hb : a ≤ b) (h : ∀ y ∈ xs, y ≤ b) :
    xs.foldl max a ≤ b := by
  induction xs generalizing a with
  | nil => exact hb
  | cons x xs ih =>
    exact ih (max a x) (max_le hb (h x (List.mem_cons_self x xs)))
      (fun y hy => h y (List.mem_cons_of_mem x hy))

theorem minD_le {l : List ℤ} {y : ℤ} (hy : y ∈ l) : minD l ≤ y := by
  cases l with
  | nil => cases hy
  | cons x xs =>
    rcases List.mem_cons.1 hy with h | h
    · subst h; exact foldl_min_le_init xs y
    · exact foldl_min_le xs x h

theorem minD_mem {l : List ℤ} (h : l ≠ []) : minD l ∈ l := by
  cases l with
  | nil => exact absurd rfl h
  | cons x xs =>
    rcases foldl_min_mem xs x with h2 | h2
    · rw [minD, h2]; exact List.mem_cons_self x xs
    · exact List.mem_cons_of_mem x h2

theorem le_minD {l : List ℤ} {b : ℤ} (h : l ≠ []) (hb : ∀ y ∈ l, b ≤ y) : b ≤ minD l := by
  cases l with
  | nil => exact absurd rfl h
  | cons x xs =>
    exact le_foldl_min xs x (hb x (List.mem_cons_self x xs))
      (fun y hy => hb y (List.mem_cons_of_mem x hy))

theorem le_maxD {l : List ℤ} {y : ℤ} (hy : y ∈ l) : y ≤ maxD l := by
  cases l with
  | nil => cases hy
  | cons x xs =>
    rcases List.mem_cons.1 hy with h | h
    · subst h; exact foldl_max_init_le xs y
    · exact le_foldl_max xs x h

theorem maxD_mem {l : List ℤ} (h : l ≠ []) : maxD l ∈ l := by
  cases l with
  | nil => exact absurd rfl h
  | cons x xs =>
    rcases foldl_max_mem xs x with h2 | h2
    · rw [maxD, h2]; exact List.mem_cons_self x xs
    · exact List.mem_cons_of_mem x h2

theorem maxD_le {l : List ℤ} {b : ℤ} (h : l ≠ []) (hb : ∀ y ∈ l, y ≤ b) : maxD l ≤ b := by
  cases l with
  | nil => exact absurd rfl h
  | cons x xs =>
    exact foldl_max_le xs x (hb x (List.mem_cons_self x xs))
      (fun y hy => hb y (List.mem_cons_of_mem x hy))

theorem minD_eq_of {l : List ℤ} {m : ℤ} (hm : m ∈ l) (hub : ∀ y ∈ l, m ≤ y) : minD l = m :=
  le_antisymm (minD_le hm) (le_minD (List.ne_nil_of_mem hm) hub)

theorem maxD_eq_of {l : List ℤ} {m : ℤ} (hm : m ∈ l) (hub : ∀ y ∈ l, y ≤ m) : maxD l = m :=
  le_antisymm (maxD_le (List.ne_nil_of_mem hm) hub) (le_maxD hm)

theorem minD_perm {l m : List ℤ} (h : l.Perm m) (hl : l ≠ []) : minD m = minD l :=
  minD_eq_of (h.mem_iff.1 (minD_mem hl)) (fun _ hy => minD_le (h.mem_iff.2 hy))

theorem maxD_perm {l m : List ℤ} (h : l.Perm m) (hl : l ≠ []) : maxD m = maxD l :=
  maxD_eq_of (h.mem_iff.1 (maxD_mem hl)) (fun _ hy => le_maxD (h.mem_iff.2 hy))

/-- Modelled from the spec: the constant MM_IN_RATIO imported from
one_marker_detect.py, a file not present in the sources; the spec gives the
"conversion ratio 25.4 (mm per inch)". -/
noncomputable def MM_IN_RATIO : ℝ := 25.4

/-- Python round() on a real value: round half to even, as applied
coordinatewise to the detected corners in the source. -/
noncomputable def pyRound (x : ℝ) : ℤ :=
  if Int.fract x < 1 / 2 then ⌊x⌋
  else if 1 / 2 < Int.fract x then ⌊x⌋ + 1
  else if ⌊x⌋ % 2 = 0 then ⌊x⌋ else ⌊x⌋ + 1

/-- np.linalg.norm of a 2-vector: the Euclidean norm. -/
noncomputable def np_linalg_norm (v : ℝ × ℝ) : ℝ := Real.sqrt (v.1 ^ 2 + v.2 ^ 2)

/-- Embedding of get_scale: the four consecutive corner displacements, their
norms, and their np.average (sum divided by 4). -/
noncomputable def get_scale (m : Marker) : ℝ :=
  (np_linalg_norm (m.c0 - m.c1) + np_linalg_norm (m.c1 - m.c2) +
    np_linalg_norm (m.c2 - m.c3) + np_linalg_norm (m.c3 - m.c0)) / 4

/-- The list of y coordinates, `y_coords` in the source. -/
def y_coords_of (coords : List (ℤ × ℤ)) : List ℤ := coords.map Prod.snd

/-- `y_1` in the source: the minimum y value. -/
def y_1_of (coords : List (ℤ × ℤ)) : ℤ := minD (y_coords_of coords)

/-- `y_2` in the source: the minimum of the working list after the first
minimum was removed (list.remove removes the first occurrence). -/
def y_2_of (coords : List (ℤ × ℤ)) : ℤ := minD ((y_coords_of coords).erase (y_1_of coords))

/-- `y_3` in the source: the maximum of the working list (which at that point
is still missing only the first minimum). -/
def y_3_of (coords : List (ℤ × ℤ)) : ℤ := maxD ((y_coords_of coords).erase (y_1_of coords))

/-- `y_4` in the source: the maximum of the working list after the first
occurrence of y_3 was also removed. -/
def y_4_of (coords : List (ℤ × ℤ)) : ℤ :=
  maxD (((y_coords_of coords).erase (y_1_of coords)).erase (y_3_of coords))

/-- `coords[y_coords.index(v)]` in the source: the point at the first list
position whose y coordinate equals v. -/
def pt_at (coords : List (ℤ × ℤ)) (v : ℤ) : ℤ × ℤ :=
  coords.getD ((y_coords_of coords).indexOf v) (0, 0)

/-- Embedding of get_diff_two_markers_px: select a top extreme and a bottom
extreme among the pooled corner points, per the requested diagonal. -/
def get_diff_two_markers_px (coords : List (ℤ × ℤ)) (diagonal : Diag) : ℤ × ℤ × ℤ × ℤ :=
  let p1 := pt_at coords (y_1_of coords)
  let p2 := pt_at coords (y_2_of coords)
  let p3 := pt_at coords (y_3_of coords)
  let p4 := pt_at coords (y_4_of coords)
  match diagonal with
  | Diag.TLBR =>
      let tl := if p1.1 < p2.1 then p1 else p2
      let br := if p3.1 > p4.1 then p3 else p4
      (tl.1, tl.2, br.1, br.2)
  | Diag.TRBL =>
      let tr := if p1.1 > p2.1 then p1 else p2
      let bl := if p3.1 < p4.1 then p3 else p4
      (tr.1, tr.2, bl.1, bl.2)

/-- One corner after Python round() on both coordinates. -/
noncomputable def roundPt (p : ℝ × ℝ) : ℤ × ℤ := (pyRound p.1, pyRound p.2)

/-- One marker's cleaned (rounded) corner list, a row of `corners` after the
round comprehension in calculate_two_markers. -/
noncomputable def roundedCorners (m : Marker) : List (ℤ × ℤ) :=
  [roundPt m.c0, roundPt m.c1, roundPt m.c2, roundPt m.c3]

/-- `corner_coords = np.concatenate(corners)`: the pooled 8 rounded corners. -/
noncomputable def corner_coords (m0 m1 : Marker) : List (ℤ × ℤ) :=
  roundedCorners m0 ++ roundedCorners m1

/-- `scale_px`: the average of the two per-marker scales. -/
noncomputable def scale_px (m0 m1 : Marker) : ℝ := (get_scale m0 + get_scale m1) / 2

/-- `top_marker_coords`: the marker whose rounded first corner has the smaller
x coordinate (the else branch takes the second marker). -/
noncomputable def top_marker_coords (m0 m1 : Marker) : List (ℤ × ℤ) :=
  if (roundPt m0.c0).1 < (roundPt m1.c0).1 then roundedCorners m0 else roundedCorners m1

/-- `bottom_marker_coords`: the other marker of the pair. -/
noncomputable def bottom_marker_coords (m0 m1 : Marker) : List (ℤ × ℤ) :=
  if (roundPt m0.c0).1 < (roundPt m1.c0).1 then roundedCorners m1 else roundedCorners m0

/-- The diagonal chosen in calculate_two_markers from
`is_top_marker_left = top_marker_coords[0][1] < bottom_marker_coords[0][1]`. -/
noncomputable def selectedDiag (m0 m1 : Marker) : Diag :=
  if ((top_marker_coords m0 m1).getD 0 (0, 0)).2 < ((bottom_marker_coords m0 m1).getD 0 (0, 0)).2
  then Diag.TLBR else Diag.TRBL

/-- The four-tuple (t_coord_x, t_coord_y, b_coord_x, b_coord_y) computed by
calculate_two_markers. -/
noncomputable def diagTuple (m0 m1 : Marker) : ℤ × ℤ × ℤ × ℤ :=
  get_diff_two_markers_px (corner_coords m0 m1) (selectedDiag m0 m1)

/-- `h_px = abs(t_coord_x - b_coord_x)`. -/
noncomputable def h_px (m0 m1 : Marker) : ℤ :=
  |(diagTuple m0 m1).1 - (diagTuple m0 m1).2.2.1|

/-- `w_px = abs(t_coord_y - b_coord_y)`. -/
noncomputable def w_px (m0 m1 : Marker) : ℤ :=
  |(diagTuple m0 m1).2.1 - (diagTuple m0 m1).2.2.2|

/-- `scale_mm = marker_size_mm / scale_px`. -/
noncomputable def scale_mm (m0 m1 : Marker) (marker_size_mm : ℝ) : ℝ :=
  marker_size_mm / scale_px m0 m1

/-- `h_in` before the final rounding line. -/
noncomputable def h_in_raw (m0 m1 : Marker) (marker_size_mm border_offset_in : ℝ) : ℝ :=
  ((h_px m0 m1 : ℝ) * scale_mm m0 m1 marker_size_mm) / MM_IN_RATIO + border_offset_in * 2

/-- `w_in` before the final rounding line. -/
noncomputable def w_in_raw (m0 m1 : Marker) (marker_size_mm border_offset_in : ℝ) : ℝ :=
  ((w_px m0 m1 : ℝ) * scale_mm m0 m1 marker_size_mm) / MM_IN_RATIO + border_offset_in * 2

/-- `math.ceil(v * 2) / 2`: round up to the nearest half unit. -/
noncomputable def roundHalfUp (v : ℝ) : ℝ := (⌈v * 2⌉ : ℝ) / 2

/-- The (h_in, w_in) pair returned once exactly two markers were detected. -/
noncomputable def calcCore (m0 m1 : Marker) (marker_size_mm border_offset_in : ℝ) : ℝ × ℝ :=
  (roundHalfUp (h_in_raw m0 m1 marker_size_mm border_offset_in),
   roundHalfUp (w_in_raw m0 m1 marker_size_mm border_offset_in))

/-- The message of the ValueError raised on a wrong marker count. -/
def wrongCountMsg : String :=
  "Unable to detect two markers, please take or upload another image."

/-- Embedding of calculate_two_markers, starting from the detector's output:
the list of detected markers (empty when ids is None) plus the marker size and
border offset; errors are modelled with Except. -/
noncomputable def calculate_two_markers (markers : List Marker)
    (marker_size_mm border_offset_in : ℝ) : Except String (ℝ × ℝ) :=
  match markers with
  | [m0, m1] => Except.ok (calcCore m0 m1 marker_size_mm border_offset_in)
  | _ => Except.error wrongCountMsg

/-- A marker whose corner coordinates are (casts of) integers, as used by the
concrete test configurations below. -/
noncomputable def mkMarker (p q r s : ℤ × ℤ) : Marker :=
  ⟨((p.1 : ℝ), (p.2 : ℝ)), ((q.1 : ℝ), (q.2 : ℝ)),
   ((r.1 : ℝ), (r.2 : ℝ)), ((s.1 : ℝ), (s.2 : ℝ))⟩

theorem pyRound_intCast (n : ℤ) : pyRound (n : ℝ) = n := by
  unfold pyRound
  rw [Int.fract_intCast, Int.floor_intCast, if_pos (by norm_num : (0 : ℝ) < 1 / 2)]

theorem roundPt_intCast (p : ℤ × ℤ) : roundPt ((p.1 : ℝ), (p.2 : ℝ)) = p := by
  simp [roundPt, pyRound_intCast]

theorem roundedCorners_mk (p q r s : ℤ × ℤ) :
    roundedCorners (mkMarker p q r s) = [p, q, r, s] := by
  simp [roundedCorners, mkMarker, roundPt_intCast]

theorem roundPt_mk_c0 (p q r s : ℤ × ℤ) : roundPt (mkMarker p q r s).c0 = p := by
  simp [mkMarker, roundPt_intCast]

/-- Modelled from the spec's words (4.3, step 1): extract the point with the
globally minimal y value (first occurrence on ties) and remove it from the
working point list. -/
def extract_min_y (l : List (ℤ × ℤ)) : (ℤ × ℤ) × List (ℤ × ℤ) :=
  (l.getD ((l.map Prod.snd).indexOf (minD (l.map Prod.snd))) (0, 0),
   l.eraseIdx ((l.map Prod.snd).indexOf (minD (l.map Prod.snd))))

/-- Modelled from the spec's words (4.3, step 1): extract the point with the
globally maximal y value (first occurrence on ties) and remove it from the
working point list. -/
def extract_max_y (l : List (ℤ × ℤ)) : (ℤ × ℤ) × List (ℤ × ℤ) :=
  (l.getD ((l.map Prod.snd).indexOf (maxD (l.map Prod.snd))) (0, 0),
   l.eraseIdx ((l.map Prod.snd).indexOf (maxD (l.map Prod.snd))))

/-- Modelled from the spec's words (4.3): the top pair by repeated extraction
of minima (find the global minimum, remove it, find the next minimum),
symmetrically the bottom pair by repeated extraction of maxima, then the
within-pair selection by x according to the layout. -/
def selectorSpec (l : List (ℤ × ℤ)) (diagonal : Diag) : ℤ × ℤ × ℤ × ℤ :=
  let e1 := extract_min_y l
  let e2 := extract_min_y e1.2
  let f1 := extract_max_y l
  let f2 := extract_max_y f1.2
  match diagonal with
  | Diag.TLBR =>
      let tl := if e1.1.1 < e2.1.1 then e1.1 else e2.1
      let br := if f1.1.1 > f2.1.1 then f1.1 else f2.1
      (tl.1, tl.2, br.1, br.2)
  | Diag.TRBL =>
      let tr := if e1.1.1 > e2.1.1 then e1.1 else e2.1
      let bl := if f1.1.1 < f2.1.1 then f1.1 else f2.1
      (tr.1, tr.2, bl.1, bl.2)

/-- The Euclidean length of a 2-vector, as the spec words it. -/
noncomputable def euclideanLength (v : ℝ × ℝ) : ℝ := Real.sqrt (v.1 ^ 2 + v.2 ^ 2)

/-- The marker's corner with index i, cyclically. -/
noncomputable def cornerAt (m : Marker) : Fin 4 → ℝ × ℝ
  | ⟨0, _⟩ => m.c0
  | ⟨1, _⟩ => m.c1
  | ⟨2, _⟩ => m.c2
  | ⟨3, _⟩ => m.c3

/-- Modelled from the spec's words (4.1): the arithmetic mean of the Euclidean
lengths of the four consecutive side vectors corner i minus corner (i+1 mod 4). -/
noncomputable def meanSideLengths (m : Marker) : ℝ :=
  (∑ i : Fin 4, euclideanLength (cornerAt m i - cornerAt m (i + 1))) / 4

/-- Replace the x coordinate of a marker's first corner (used to state the
x-order swapping property of the diagonal classification). -/
noncomputable def setC0x (m : Marker) (x : ℝ) : Marker := { m with c0 := (x, m.c0.2) }

theorem map_eraseIdx_snd (l : List (ℤ × ℤ)) (i : ℕ) :
    (l.eraseIdx i).map Prod.snd = (l.map Prod.snd).eraseIdx i := by
  induction l generalizing i with
  | nil => simp
  | cons p t ih =>
    cases i with
    | zero => simp
    | succ n => simp [ih]

theorem getD_eraseIdx_key (l : List (ℤ × ℤ)) (a v : ℤ) (hav : v ≠ a) :
    (l.eraseIdx ((l.map Prod.snd).indexOf a)).getD
      (((l.map Prod.snd).eraseIdx ((l.map Prod.snd).indexOf a)).indexOf v) (0, 0)
    = l.getD ((l.map Prod.snd).indexOf v) (0, 0) := by
  induction l with
  | nil => simp
  | cons p t ih =>
    by_cases hpa : p.2 = a
    · rw [List.map_cons, List.indexOf_cons_eq _ hpa, List.eraseIdx_cons_zero,
        List.eraseIdx_cons_zero,
        List.indexOf_cons_ne _ (show p.2 ≠ v by rw [hpa]; exact Ne.symm hav),
        List.getD_cons_succ]
    · by_cases hpv : p.2 = v
      · rw [List.map_cons, List.indexOf_cons_ne _ hpa, List.eraseIdx_cons_succ,
          List.eraseIdx_cons_succ, List.indexOf_cons_eq _ hpv,
          List.indexOf_cons_eq _ hpv, List.getD_cons_zero, List.getD_cons_zero]
      · rw [List.map_cons, List.indexOf_cons_ne _ hpa, List.eraseIdx_cons_succ,
          List.eraseIdx_cons_succ, List.indexOf_cons_ne _ hpv,
          List.indexOf_cons_ne _ hpv, List.getD_cons_succ, List.getD_cons_succ]
        exact ih

theorem getD_eraseIdx_key2 (l : List (ℤ × ℤ)) (a v : ℤ) (hav : v ≠ a) :
    (l.eraseIdx ((l.map Prod.snd).indexOf a)).getD
      (((l.map Prod.snd).erase a).indexOf v) (0, 0)
    = l.getD ((l.map Prod.snd).indexOf v) (0, 0) := by
  rw [← List.eraseIdx_indexOf_eq_erase]
  exact getD_eraseIdx_key l a v hav

theorem count_one_not_mem_erase {l : List ℤ} {a : ℤ} (h : l.count a = 1) : a ∉ l.erase a := by
  intro hm
  have h0 : (l.erase a).count a = 0 := by rw [List.count_erase_self, h]
  have h1 : 0 < (l.erase a).count a := List.count_pos_iff.2 hm
  rw [h0] at h1
  exact lt_irrefl 0 h1

theorem minD_ne_maxD {l : List ℤ} (hlen : 2 ≤ l.length) (hc : l.count (minD l) = 1) :
    minD l ≠ maxD l := by
  intro he
  have hall : ∀ b ∈ l, minD l = b := fun b hb => le_antisymm (minD_le hb) (he ▸ le_maxD hb)
  have h2 : l.count (minD l) = l.length := List.count_eq_length.2 hall
  omega

theorem minD_erase_ne {l : List ℤ} (hmin : l.count (minD l) = 1)
    (hne2 : l.erase (minD l) ≠ []) :
    minD (l.erase (minD l)) ≠ minD l := by
  intro he
  have hm := minD_mem hne2
  rw [he] at hm
  exact count_one_not_mem_erase hmin hm

theorem maxD_erase_ne {l : List ℤ} (hmax : l.count (maxD l) = 1)
    (hne2 : l.erase (maxD l) ≠ []) :
    maxD (l.erase (maxD l)) ≠ maxD l := by
  intro he
  have hm := maxD_mem hne2
  rw [he] at hm
  exact count_one_not_mem_erase hmax hm

theorem maxD_erase_minD {l : List ℤ} (hlen : 2 ≤ l.length) (hc : l.count (minD l) = 1) :
    maxD (l.erase (minD l)) = maxD l := by
  have hne : l ≠ [] := by intro h; rw [h] at hlen; simp at hlen
  have hM : maxD l ∈ l.erase (minD l) :=
    (List.mem_erase_of_ne (Ne.symm (minD_ne_maxD hlen hc))).2 (maxD_mem hne)
  exact maxD_eq_of hM (fun y hy => le_maxD (List.mem_of_mem_erase hy))

theorem maxD_erase_erase {l : List ℤ} (hlen : 3 ≤ l.length) (hmin : l.count (minD l) = 1) :
    maxD ((l.erase (minD l)).erase (maxD l)) = maxD (l.erase (maxD l)) := by
  rw [List.erase_comm]
  have hlen2 : 2 ≤ l.length := by omega
  have hne : l ≠ [] := by intro h; rw [h] at hlen; simp at hlen
  have hm1M : minD l ≠ maxD l := minD_ne_maxD hlen2 hmin
  have hm1A : minD l ∈ l.erase (maxD l) := (List.mem_erase_of_ne hm1M).2 (minD_mem hne)
  have hAlen : (l.erase (maxD l)).length = l.length - 1 := List.length_erase_of_mem (maxD_mem hne)
  have hBlen : ((l.erase (maxD l)).erase (minD l)).length = (l.erase (maxD l)).length - 1 :=
    List.length_erase_of_mem hm1A
  have hBne : (l.erase (maxD l)).erase (minD l) ≠ [] := by
    intro h
    rw [h] at hBlen
    simp at hBlen
    omega
  have hAne : l.erase (maxD l) ≠ [] := List.ne_nil_of_mem hm1A
  have hle1 : maxD ((l.erase (maxD l)).erase (minD l)) ≤ maxD (l.erase (maxD l)) :=
    le_maxD (List.mem_of_mem_erase (maxD_mem hBne))
  have hMA : maxD (l.erase (maxD l)) ≠ minD l := by
    intro he
    have hall : ∀ b ∈ l.erase (maxD l), minD l = b := fun b hb =>
      le_antisymm (minD_le (List.mem_of_mem_erase hb)) (he ▸ le_maxD hb)
    have hCA : (l.erase (maxD l)).count (minD l) = (l.erase (maxD l)).length :=
      List.count_eq_length.2 hall
    have hC : (l.erase (maxD l)).count (minD l) = l.count (minD l) :=
      List.count_erase_of_ne hm1M l
    omega
  have hle2 : maxD (l.erase (maxD l)) ≤ maxD ((l.erase (maxD l)).erase (minD l)) :=
    le_maxD ((List.mem_erase_of_ne hMA).2 (maxD_mem hAne))
  exact le_antisymm hle1 hle2

theorem minD_erase_eq_of_two {l : List ℤ} (hc : 2 ≤ l.count (minD l)) :
    minD (l.erase (minD l)) = minD l := by
  have hm : minD l ∈ l.erase (minD l) := by
    apply List.count_pos_iff.1
    rw [List.count_erase_self]
    omega
  exact minD_eq_of hm (fun y hy => minD_le (List.mem_of_mem_erase hy))

theorem maxD_erase_minD_of_two {l : List ℤ} (hc : 2 ≤ l.count (maxD l)) :
    maxD (l.erase (minD l)) = maxD l := by
  have hm : maxD l ∈ l.erase (minD l) := by
    apply List.count_pos_iff.1
    by_cases h : maxD l = minD l
    · rw [← h, List.count_erase_self]
      omega
    · rw [List.count_erase_of_ne h]
      omega
  exact maxD_eq_of hm (fun y hy => le_maxD (List.mem_of_mem_erase hy))

theorem maxD_erase_erase_of_two {l : List ℤ} (hlen : 3 ≤ l.length)
    (hc : 2 ≤ l.count (maxD l)) :
    maxD ((l.erase (minD l)).erase (maxD l)) = maxD l := by
  have hm : maxD l ∈ (l.erase (minD l)).erase (maxD l) := by
    apply List.count_pos_iff.1
    rw [List.count_erase_self]
    by_cases h : maxD l = minD l
    · have hall : ∀ b ∈ l, maxD l = b := fun b hb =>
        le_antisymm (h ▸ minD_le hb) (le_maxD hb)
      have hcl : l.count (maxD l) = l.length := List.count_eq_length.2 hall
      have h2 : (l.erase (minD l)).count (maxD l) = l.count (maxD l) - 1 := by
        rw [← h, List.count_erase_self]
      omega
    · rw [List.count_erase_of_ne h]
      omega
  exact maxD_eq_of hm
    (fun y hy => le_maxD (List.mem_of_mem_erase (List.mem_of_mem_erase hy)))

/-- The 8-point configuration exhibiting the tie behaviour of
get_diff_two_markers_px: the minimal y value 0 occurs at two points with
different x coordinates. -/
def tieExample : List (ℤ × ℤ) :=
  [(0, 0), (10, 0), (1, 2), (2, 3), (3, 4), (4, 5), (5, 6), (6, 7)]

/-- Claim C2, counterexample: on tieExample with the TRBL layout the top pair
per repeated extraction is (0,0) and (10,0), whose larger-x member is (10,0),
but get_diff_two_markers_px returns (0,0) as the top extreme because both
index lookups resolve to the first occurrence of the duplicated minimal y. -/
theorem get_diff_differs_from_selector_on_ties :
    tieExample.length = 8 ∧
    get_diff_two_markers_px tieExample Diag.TRBL = (0, 0, 5, 6) ∧
    selectorSpec tieExample Diag.TRBL = (10, 0, 5, 6) ∧
    get_diff_two_markers_px tieExample Diag.TRBL ≠ selectorSpec tieExample Diag.TRBL :=
  ⟨by decide, by decide, by decide, by decide⟩

/-- Claim C2 (amended): for every list of 8 integer corner points whose
minimal y value and maximal y value are each attained by exactly one point,
get_diff_two_markers_px selects the top pair by repeated extraction of minima
and the bottom pair by repeated extraction of maxima, and returns the
within-pair points chosen by the layout's x comparison - i.e. it agrees with
the spec-worded selector. -/
theorem get_diff_matches_selector (l : List (ℤ × ℤ)) (d : Diag)
    (h8 : l.length = 8)
    (hmin : (l.map Prod.snd).count (minD (l.map Prod.snd)) = 1)
    (hmax : (l.map Prod.snd).count (maxD (l.map Prod.snd)) = 1) :
    get_diff_two_markers_px l d = selectorSpec l d := by
  have hyslen : (l.map Prod.snd).length = 8 := by rw [List.length_map]; exact h8
  have hysne : l.map Prod.snd ≠ [] := by
    intro h
    rw [h] at hyslen
    simp at hyslen
  have hminmem : minD (l.map Prod.snd) ∈ l.map Prod.snd := minD_mem hysne
  have hmaxmem : maxD (l.map Prod.snd) ∈ l.map Prod.snd := maxD_mem hysne
  have helen : ((l.map Prod.snd).erase (minD (l.map Prod.snd))).length = 7 := by
    rw [List.length_erase_of_mem hminmem, hyslen]
  have hene : (l.map Prod.snd).erase (minD (l.map Prod.snd)) ≠ [] := by
    intro h
    rw [h] at helen
    simp at helen
  have helen2 : ((l.map Prod.snd).erase (maxD (l.map Prod.snd))).length = 7 := by
    rw [List.length_erase_of_mem hmaxmem, hyslen]
  have hene2 : (l.map Prod.snd).erase (maxD (l.map Prod.snd)) ≠ [] := by
    intro h
    rw [h] at helen2
    simp at helen2
  have hy3 : y_3_of l = maxD (l.map Prod.snd) := by
    simp only [y_3_of, y_1_of, y_coords_of]
    exact maxD_erase_minD (by omega) hmin
  have hy4 : y_4_of l = maxD ((l.map Prod.snd).erase (maxD (l.map Prod.snd))) := by
    simp only [y_4_of, y_1_of, y_coords_of, hy3]
    exact maxD_erase_erase (by omega) hmin
  have hq1 : (extract_min_y l).1 = pt_at l (y_1_of l) := rfl
  have hq2 : (extract_min_y (extract_min_y l).2).1 = pt_at l (y_2_of l) := by
    show (extract_min_y
        (l.eraseIdx ((l.map Prod.snd).indexOf (minD (l.map Prod.snd))))).1 = _
    simp only [extract_min_y, map_eraseIdx_snd, List.eraseIdx_indexOf_eq_erase]
    exact getD_eraseIdx_key2 l (minD (l.map Prod.snd))
      (minD ((l.map Prod.snd).erase (minD (l.map Prod.snd)))) (minD_erase_ne hmin hene)
  have hq3 : (extract_max_y l).1 = pt_at l (y_3_of l) := by
    rw [hy3]
    rfl
  have hq4 : (extract_max_y (extract_max_y l).2).1 = pt_at l (y_4_of l) := by
    rw [hy4]
    show (extract_max_y
        (l.eraseIdx ((l.map Prod.snd).indexOf (maxD (l.map Prod.snd))))).1 = _
    simp only [extract_max_y, map_eraseIdx_snd, List.eraseIdx_indexOf_eq_erase]
    exact getD_eraseIdx_key2 l (maxD (l.map Prod.snd))
      (maxD ((l.map Prod.snd).erase (maxD (l.map Prod.snd)))) (maxD_erase_ne hmax hene2)
  cases d with
  | TLBR => simp only [get_diff_two_markers_px, selectorSpec, hq1, hq2, hq3, hq4]
  | TRBL => simp only [get_diff_two_markers_px, selectorSpec, hq1, hq2, hq3, hq4]

/-- Claim C10: on an 8-point list in which the minimal y value occurs more
than once, both top-pair index lookups return the first occurrence of that
minimum, so for both layouts the top extreme is that first point; and
symmetrically the bottom extreme is the first point attaining a duplicated
maximal y value. -/
theorem get_diff_tie_first_occurrence (l : List (ℤ × ℤ)) (d : Diag) (h8 : l.length = 8) :
    (2 ≤ (l.map Prod.snd).count (minD (l.map Prod.snd)) →
      ((get_diff_two_markers_px l d).1, (get_diff_two_markers_px l d).2.1)
        = pt_at l (minD (l.map Prod.snd))) ∧
    (2 ≤ (l.map Prod.snd).count (maxD (l.map Prod.snd)) →
      ((get_diff_two_markers_px l d).2.2.1, (get_diff_two_markers_px l d).2.2.2)
        = pt_at l (maxD (l.map Prod.snd))) := by
  constructor
  · intro hc
    have hy2 : y_2_of l = y_1_of l := by
      simp only [y_2_of, y_1_of, y_coords_of]
      exact minD_erase_eq_of_two hc
    cases d with
    | TLBR => simp only [get_diff_two_markers_px, hy2, ite_self, Prod.mk.eta,
        y_1_of, y_coords_of]
    | TRBL => simp only [get_diff_two_markers_px, hy2, ite_self, Prod.mk.eta,
        y_1_of, y_coords_of]
  · intro hc
    have hy3 : y_3_of l = maxD (l.map Prod.snd) := by
      simp only [y_3_of, y_1_of, y_coords_of]
      exact maxD_erase_minD_of_two hc
    have hy4 : y_4_of l = maxD (l.map Prod.snd) := by
      simp only [y_4_of, y_1_of, y_coords_of, hy3]
      apply maxD_erase_erase_of_two _ hc
      rw [List.length_map]
      omega
    cases d with
    | TLBR => simp only [get_diff_two_markers_px, hy3, hy4, ite_self, Prod.mk.eta]
    | TRBL => simp only [get_diff_two_markers_px, hy3, hy4, ite_self, Prod.mk.eta]

theorem erase_ne_nil {l : List ℤ} (h : 2 ≤ l.length) (a : ℤ) : l.erase a ≠ [] := by
  by_cases hm : a ∈ l
  · have h2 := List.length_erase_of_mem hm
    intro he
    rw [he] at h2
    simp at h2
    omega
  · rw [List.erase_of_not_mem hm]
    intro he
    rw [he] at h
    simp at h

theorem pt_at_snd {l : List (ℤ × ℤ)} {v : ℤ} (hv : v ∈ l.map Prod.snd) :
    (pt_at l v).2 = v ∧ pt_at l v ∈ l := by
  have hlt : (l.map Prod.snd).indexOf v < (l.map Prod.snd).length :=
    List.indexOf_lt_length.2 hv
  have hlt2 : (l.map Prod.snd).indexOf v < l.length := by
    rw [List.length_map] at hlt
    exact hlt
  constructor
  · have h1 : (l.map Prod.snd)[(l.map Prod.snd).indexOf v] = v := List.getElem_indexOf hlt
    rw [List.getElem_map] at h1
    rw [pt_at, y_coords_of, List.getD_eq_getElem l _ hlt2]
    exact h1
  · rw [pt_at, y_coords_of, List.getD_eq_getElem l _ hlt2]
    exact List.getElem_mem hlt2

theorem pt_at_perm {l m : List (ℤ × ℤ)} (hp : l.Perm m) (hn : (l.map Prod.snd).Nodup)
    {v : ℤ} (hv : v ∈ l.map Prod.snd) :
    pt_at m v = pt_at l v := by
  have hv2 : v ∈ m.map Prod.snd := ((hp.map Prod.snd).mem_iff).1 hv
  have h1 := pt_at_snd hv
  have h2 := pt_at_snd hv2
  exact List.inj_on_of_nodup_map hn (hp.mem_iff.2 h2.2) h1.2 (by rw [h2.1, h1.1])

theorem get_diff_perm {l m : List (ℤ × ℤ)} (hp : l.Perm m) (hn : (l.map Prod.snd).Nodup)
    (hlen : 3 ≤ l.length) (d : Diag) :
    get_diff_two_markers_px m d = get_diff_two_markers_px l d := by
  have hpm : (l.map Prod.snd).Perm (m.map Prod.snd) := hp.map Prod.snd
  have hyslen : 3 ≤ (l.map Prod.snd).length := by rw [List.length_map]; exact hlen
  have hysne : l.map Prod.snd ≠ [] := by
    intro h
    rw [h] at hyslen
    simp at hyslen
  have hminmem : minD (l.map Prod.snd) ∈ l.map Prod.snd := minD_mem hysne
  have hene : (l.map Prod.snd).erase (minD (l.map Prod.snd)) ≠ [] :=
    erase_ne_nil (by omega) _
  have hene2 : ((l.map Prod.snd).erase (minD (l.map Prod.snd))).erase
      (y_3_of l) ≠ [] := by
    apply erase_ne_nil
    rw [List.length_erase_of_mem hminmem]
    omega
  have hmD : minD (m.map Prod.snd) = minD (l.map Prod.snd) := minD_perm hpm hysne
  have heperm : ((l.map Prod.snd).erase (minD (l.map Prod.snd))).Perm
      ((m.map Prod.snd).erase (minD (l.map Prod.snd))) := hpm.erase _
  have h1 : y_1_of m = y_1_of l := by
    simp only [y_1_of, y_coords_of]
    exact hmD
  have h2 : y_2_of m = y_2_of l := by
    simp only [y_2_of, y_1_of, y_coords_of, hmD]
    exact minD_perm heperm hene
  have h3 : y_3_of m = y_3_of l := by
    simp only [y_3_of, y_1_of, y_coords_of, hmD]
    exact maxD_perm heperm hene
  have h4 : y_4_of m = y_4_of l := by
    simp only [y_4_of, y_1_of, y_coords_of, hmD, h3]
    exact maxD_perm (heperm.erase (y_3_of l)) hene2
  have hmem1 : y_1_of l ∈ l.map Prod.snd := hminmem
  have hmem2 : y_2_of l ∈ l.map Prod.snd :=
    List.mem_of_mem_erase (minD_mem hene)
  have hmem3 : y_3_of l ∈ l.map Prod.snd :=
    List.mem_of_mem_erase (maxD_mem hene)
  have hmem4 : y_4_of l ∈ l.map Prod.snd :=
    List.mem_of_mem_erase (List.mem_of_mem_erase (maxD_mem hene2))
  have hP1 : pt_at m (y_1_of m) = pt_at l (y_1_of l) := by
    rw [h1]
    exact pt_at_perm hp hn hmem1
  have hP2 : pt_at m (y_2_of m) = pt_at l (y_2_of l) := by
    rw [h2]
    exact pt_at_perm hp hn hmem2
  have hP3 : pt_at m (y_3_of m) = pt_at l (y_3_of l) := by
    rw [h3]
    exact pt_at_perm hp hn hmem3
  have hP4 : pt_at m (y_4_of m) = pt_at l (y_4_of l) := by
    rw [h4]
    exact pt_at_perm hp hn hmem4
  cases d with
  | TLBR => simp only [get_diff_two_markers_px, hP1, hP2, hP3, hP4]
  | TRBL => simp only [get_diff_two_markers_px, hP1, hP2, hP3, hP4]

theorem selectedDiag_eq (A B : Marker) :
    selectedDiag A B =
      if (roundPt A.c0).1 < (roundPt B.c0).1 then
        (if (roundPt A.c0).2 < (roundPt B.c0).2 then Diag.TLBR else Diag.TRBL)
      else
        (if (roundPt B.c0).2 < (roundPt A.c0).2 then Diag.TLBR else Diag.TRBL) := by
  unfold selectedDiag top_marker_coords bottom_marker_coords
  by_cases h : (roundPt A.c0).1 < (roundPt B.c0).1
  · rw [if_pos h, if_pos h, if_pos h]
    rfl
  · rw [if_neg h, if_neg h, if_neg h]
    rfl

/-- Claim C3: the diagonal classification compares the markers' rounded first
corners: the smaller-x marker is labelled top, then the layout is TLBR exactly
when the top marker's first-corner y is smaller than the bottom one's;
swapping the two markers' first-corner x coordinates flips the layout. -/
theorem classification_rule (A B : Marker) :
    ((roundPt A.c0).1 < (roundPt B.c0).1 →
      (selectedDiag A B = Diag.TLBR ↔ (roundPt A.c0).2 < (roundPt B.c0).2)) ∧
    (¬ (roundPt A.c0).1 < (roundPt B.c0).1 →
      (selectedDiag A B = Diag.TLBR ↔ (roundPt B.c0).2 < (roundPt A.c0).2)) ∧
    ((roundPt A.c0).1 < (roundPt B.c0).1 → (roundPt A.c0).2 < (roundPt B.c0).2 →
      selectedDiag A B = Diag.TLBR ∧
      selectedDiag (setC0x A B.c0.1) (setC0x B A.c0.1) = Diag.TRBL) := by
  refine ⟨fun hx => ?_, fun hx => ?_, fun hx hy => ⟨?_, ?_⟩⟩
  · rw [selectedDiag_eq, if_pos hx]
    by_cases hy : (roundPt A.c0).2 < (roundPt B.c0).2
    · simp [hy]
    · simp [hy]
  · rw [selectedDiag_eq, if_neg hx]
    by_cases hy : (roundPt B.c0).2 < (roundPt A.c0).2
    · simp [hy]
    · simp [hy]
  · rw [selectedDiag_eq, if_pos hx, if_pos hy]
  · rw [selectedDiag_eq]
    rw [if_neg (not_lt.2 (le_of_lt hx) :
      ¬ (roundPt (setC0x A B.c0.1).c0).1 < (roundPt (setC0x B A.c0.1).c0).1)]
    rw [if_neg (not_lt.2 (le_of_lt hy) :
      ¬ (roundPt (setC0x B A.c0.1).c0).2 < (roundPt (setC0x A B.c0.1).c0).2)]

/-- Claim C4: get_scale is the arithmetic mean of the Euclidean lengths of the
four consecutive side vectors corner i minus corner (i+1 mod 4), and the Scale
used by the pipeline is the average of the two per-marker means. -/
theorem get_scale_is_mean_side_length (m0 m1 : Marker) :
    get_scale m0 = meanSideLengths m0 ∧
    scale_px m0 m1 = (meanSideLengths m0 + meanSideLengths m1) / 2 := by
  have key : ∀ m : Marker, get_scale m = meanSideLengths m := by
    intro m
    unfold meanSideLengths
    rw [Fin.sum_univ_four]
    rfl
  exact ⟨key m0, by unfold scale_px; rw [key m0, key m1]⟩

/-- Claim C6: a detection result whose marker count is not exactly two (no
markers at all, one, or three or more) yields the wrong-marker-count error,
independently of every geometric input. -/
theorem wrong_count_errors (markers : List Marker) (s b : ℝ) (h : markers.length ≠ 2) :
    calculate_two_markers markers s b = Except.error wrongCountMsg := by
  rcases markers with _ | ⟨a, _ | ⟨b2, _ | ⟨c, t⟩⟩⟩
  · rfl
  · rfl
  · exact absurd rfl h
  · rfl

/-- Witness for the wrong-count claim at the empty detection result. -/
theorem wrong_count_errors_witness :
    ([] : List Marker).length ≠ 2 ∧
    calculate_two_markers [] 1 0 = Except.error wrongCountMsg :=
  ⟨by decide, wrong_count_errors [] 1 0 (by decide)⟩

/-- Claim C9 (amended): for fixed pixel geometry the pre-rounding dimensions
are directly - not inversely - proportional to the reported marker size:
doubling the size doubles unit-per-pixel and both raw dimensions (border 0). -/
theorem doubling_size_doubles_raw (m0 m1 : Marker) (s : ℝ) :
    scale_mm m0 m1 (2 * s) = 2 * scale_mm m0 m1 s ∧
    h_in_raw m0 m1 (2 * s) 0 = 2 * h_in_raw m0 m1 s 0 ∧
    w_in_raw m0 m1 (2 * s) 0 = 2 * w_in_raw m0 m1 s 0 := by
  unfold h_in_raw w_in_raw scale_mm
  refine ⟨by ring, by ring, by ring⟩

theorem roundHalfUp_spec (v : ℝ) (hv : 0 ≤ v) :
    (∃ k : ℕ, roundHalfUp v = (k : ℝ) / 2) ∧ v ≤ roundHalfUp v ∧ roundHalfUp v - v < 1 / 2 := by
  unfold roundHalfUp
  have hceil := Int.le_ceil (v * 2)
  have hceil2 := Int.ceil_lt_add_one (v * 2)
  refine ⟨⟨(⌈v * 2⌉).toNat, ?_⟩, by linarith, by linarith⟩
  have hge : (0 : ℤ) ≤ ⌈v * 2⌉ := Int.ceil_nonneg (by linarith)
  have hcast : ((⌈v * 2⌉.toNat : ℕ) : ℝ) = ((⌈v * 2⌉ : ℤ) : ℝ) := by
    exact_mod_cast Int.toNat_of_nonneg hge
  rw [hcast]

theorem scale_px_pos {m0 m1 : Marker} (h0 : 0 < get_scale m0) (h1 : 0 < get_scale m1) :
    0 < scale_px m0 m1 := by
  unfold scale_px
  linarith

theorem raws_nonneg (m0 m1 : Marker) (s b : ℝ) (hs : 0 ≤ s) (hb : 0 ≤ b)
    (hsc : 0 < scale_px m0 m1) :
    0 ≤ h_in_raw m0 m1 s b ∧ 0 ≤ w_in_raw m0 m1 s b := by
  have hratio : (0 : ℝ) < MM_IN_RATIO := by
    unfold MM_IN_RATIO
    norm_num
  constructor
  · unfold h_in_raw scale_mm
    have h2 : (0 : ℝ) ≤ ((h_px m0 m1 : ℤ) : ℝ) := by
      exact_mod_cast abs_nonneg ((diagTuple m0 m1).1 - (diagTuple m0 m1).2.2.1)
    have h3 : 0 ≤ s / scale_px m0 m1 := div_nonneg hs hsc.le
    have h4 : 0 ≤ ((h_px m0 m1 : ℤ) : ℝ) * (s / scale_px m0 m1) := mul_nonneg h2 h3
    have h5 : 0 ≤ ((h_px m0 m1 : ℤ) : ℝ) * (s / scale_px m0 m1) / MM_IN_RATIO :=
      div_nonneg h4 hratio.le
    linarith
  · unfold w_in_raw scale_mm
    have h2 : (0 : ℝ) ≤ ((w_px m0 m1 : ℤ) : ℝ) := by
      exact_mod_cast abs_nonneg ((diagTuple m0 m1).2.1 - (diagTuple m0 m1).2.2.2)
    have h3 : 0 ≤ s / scale_px m0 m1 := div_nonneg hs hsc.le
    have h4 : 0 ≤ ((w_px m0 m1 : ℤ) : ℝ) * (s / scale_px m0 m1) := mul_nonneg h2 h3
    have h5 : 0 ≤ ((w_px m0 m1 : ℤ) : ℝ) * (s / scale_px m0 m1) / MM_IN_RATIO :=
      div_nonneg h4 hratio.le
    linarith

/-- Claim C1: on valid input (both markers non-degenerate, non-negative size
and border offset) each returned value is a non-negative half-integer multiple
obtained by rounding the raw value up: it is at least the raw value and
exceeds it by less than one half. -/
theorem calc_rounds_up_half (m0 m1 : Marker) (s b : ℝ)
    (hs : 0 ≤ s) (hb : 0 ≤ b) (h0 : 0 < get_scale m0) (h1 : 0 < get_scale m1) :
    ((∃ k : ℕ, (calcCore m0 m1 s b).1 = (k : ℝ) / 2) ∧
      h_in_raw m0 m1 s b ≤ (calcCore m0 m1 s b).1 ∧
      (calcCore m0 m1 s b).1 - h_in_raw m0 m1 s b < 1 / 2) ∧
    ((∃ k : ℕ, (calcCore m0 m1 s b).2 = (k : ℝ) / 2) ∧
      w_in_raw m0 m1 s b ≤ (calcCore m0 m1 s b).2 ∧
      (calcCore m0 m1 s b).2 - w_in_raw m0 m1 s b < 1 / 2) := by
  have hsc := scale_px_pos h0 h1
  have hraws := raws_nonneg m0 m1 s b hs hb hsc
  exact ⟨roundHalfUp_spec (h_in_raw m0 m1 s b) hraws.1,
    roundHalfUp_spec (w_in_raw m0 m1 s b) hraws.2⟩

theorem np_linalg_norm_eval {x y c : ℝ} (hc : 0 ≤ c) (h : x ^ 2 + y ^ 2 = c ^ 2) :
    np_linalg_norm (x, y) = c := by
  show Real.sqrt (x ^ 2 + y ^ 2) = c
  rw [h, Real.sqrt_sq hc]

theorem norm_sub_eval (px py qx qy : ℤ) (c : ℝ) (hc : 0 ≤ c)
    (h : ((px - qx : ℤ) : ℝ) ^ 2 + ((py - qy : ℤ) : ℝ) ^ 2 = c ^ 2) :
    np_linalg_norm (((px : ℝ), (py : ℝ)) - ((qx : ℝ), (qy : ℝ))) = c := by
  rw [Prod.mk_sub_mk]
  apply np_linalg_norm_eval hc
  push_cast at h ⊢
  linarith

theorem get_scale_eval (m : Marker) (c : ℝ)
    (h0 : np_linalg_norm (m.c0 - m.c1) = c) (h1 : np_linalg_norm (m.c1 - m.c2) = c)
    (h2 : np_linalg_norm (m.c2 - m.c3) = c) (h3 : np_linalg_norm (m.c3 - m.c0) = c) :
    get_scale m = c := by
  unfold get_scale
  rw [h0, h1, h2, h3]
  ring

theorem roundHalfUp_eq (v : ℝ) (n : ℤ) (h1 : (n : ℝ) - 1 < v * 2) (h2 : v * 2 ≤ (n : ℝ)) :
    roundHalfUp v = (n : ℝ) / 2 := by
  unfold roundHalfUp
  rw [Int.ceil_eq_iff.2 ⟨h1, h2⟩]

/-- Square marker of side 40 at the window's top left, the first marker of
the spec's concrete scenario. -/
noncomputable def mA : Marker := mkMarker (0, 0) (40, 0) (40, 40) (0, 40)

/-- Square marker of side 40 at the window's bottom right, 400 px away in x
and 300 px away in y, the second marker of the spec's concrete scenario. -/
noncomputable def mB : Marker := mkMarker (360, 260) (400, 260) (400, 300) (360, 300)

/-- Square marker of side 42 placed to the right of mA with the same top
edge y, producing a cross-marker tie of the minimal pooled y value. -/
noncomputable def mSq1 : Marker := mkMarker (200, 0) (242, 0) (242, 42) (200, 42)

/-- Fully degenerate marker: all four corners coincide. -/
noncomputable def mDeg : Marker := mkMarker (100, 100) (100, 100) (100, 100) (100, 100)

/-- Healthy square marker of side 40 paired with the degenerate one. -/
noncomputable def mN : Marker := mkMarker (200, 200) (240, 200) (240, 240) (200, 240)

/-- Tilted square marker (side vector (4,3), side length 5) whose corners have
pairwise distinct y values. -/
noncomputable def mT0 : Marker := mkMarker (0, 0) (4, 3) (1, 7) (-3, 4)

/-- The tilted square translated by (100, 10), keeping all 8 pooled y values
pairwise distinct. -/
noncomputable def mT1 : Marker := mkMarker (100, 10) (104, 13) (101, 17) (97, 14)

theorem get_scale_mA : get_scale mA = 40 :=
  get_scale_eval mA 40
    (norm_sub_eval 0 0 40 0 40 (by norm_num) (by norm_num))
    (norm_sub_eval 40 0 40 40 40 (by norm_num) (by norm_num))
    (norm_sub_eval 40 40 0 40 40 (by norm_num) (by norm_num))
    (norm_sub_eval 0 40 0 0 40 (by norm_num) (by norm_num))

theorem get_scale_mB : get_scale mB = 40 :=
  get_scale_eval mB 40
    (norm_sub_eval 360 260 400 260 40 (by norm_num) (by norm_num))
    (norm_sub_eval 400 260 400 300 40 (by norm_num) (by norm_num))
    (norm_sub_eval 400 300 360 300 40 (by norm_num) (by norm_num))
    (norm_sub_eval 360 300 360 260 40 (by norm_num) (by norm_num))

theorem get_scale_mSq1 : get_scale mSq1 = 42 :=
  get_scale_eval mSq1 42
    (norm_sub_eval 200 0 242 0 42 (by norm_num) (by norm_num))
    (norm_sub_eval 242 0 242 42 42 (by norm_num) (by norm_num))
    (norm_sub_eval 242 42 200 42 42 (by norm_num) (by norm_num))
    (norm_sub_eval 200 42 200 0 42 (by norm_num) (by norm_num))

theorem get_scale_mDeg : get_scale mDeg = 0 :=
  get_scale_eval mDeg 0
    (norm_sub_eval 100 100 100 100 0 (by norm_num) (by norm_num))
    (norm_sub_eval 100 100 100 100 0 (by norm_num) (by norm_num))
    (norm_sub_eval 100 100 100 100 0 (by norm_num) (by norm_num))
    (norm_sub_eval 100 100 100 100 0 (by norm_num) (by norm_num))

theorem get_scale_mN : get_scale mN = 40 :=
  get_scale_eval mN 40
    (norm_sub_eval 200 200 240 200 40 (by norm_num) (by norm_num))
    (norm_sub_eval 240 200 240 240 40 (by norm_num) (by norm_num))
    (norm_sub_eval 240 240 200 240 40 (by norm_num) (by norm_num))
    (norm_sub_eval 200 240 200 200 40 (by norm_num) (by norm_num))

theorem get_scale_mT0 : get_scale mT0 = 5 :=
  get_scale_eval mT0 5
    (norm_sub_eval 0 0 4 3 5 (by norm_num) (by norm_num))
    (norm_sub_eval 4 3 1 7 5 (by norm_num) (by norm_num))
    (norm_sub_eval 1 7 (-3) 4 5 (by norm_num) (by norm_num))
    (norm_sub_eval (-3) 4 0 0 5 (by norm_num) (by norm_num))

theorem get_scale_mT1 : get_scale mT1 = 5 :=
  get_scale_eval mT1 5
    (norm_sub_eval 100 10 104 13 5 (by norm_num) (by norm_num))
    (norm_sub_eval 104 13 101 17 5 (by norm_num) (by norm_num))
    (norm_sub_eval 101 17 97 14 5 (by norm_num) (by norm_num))
    (norm_sub_eval 97 14 100 10 5 (by norm_num) (by norm_num))

theorem scale_px_AB : scale_px mA mB = 40 := by
  unfold scale_px
  rw [get_scale_mA, get_scale_mB]
  norm_num

theorem scale_px_ASq1 : scale_px mA mSq1 = 41 := by
  unfold scale_px
  rw [get_scale_mA, get_scale_mSq1]
  norm_num

theorem scale_px_Sq1A : scale_px mSq1 mA = 41 := by
  unfold scale_px
  rw [get_scale_mA, get_scale_mSq1]
  norm_num

theorem scale_px_DegN : scale_px mDeg mN = 20 := by
  unfold scale_px
  rw [get_scale_mDeg, get_scale_mN]
  norm_num

theorem diag_AB : selectedDiag mA mB = Diag.TLBR := by
  unfold mA mB
  rw [selectedDiag_eq, roundPt_mk_c0, roundPt_mk_c0]
  decide

theorem diag_ASq1 : selectedDiag mA mSq1 = Diag.TRBL := by
  unfold mA mSq1
  rw [selectedDiag_eq, roundPt_mk_c0, roundPt_mk_c0]
  decide

theorem diag_Sq1A : selectedDiag mSq1 mA = Diag.TRBL := by
  unfold mA mSq1
  rw [selectedDiag_eq, roundPt_mk_c0, roundPt_mk_c0]
  decide

theorem diag_DegN : selectedDiag mDeg mN = Diag.TLBR := by
  unfold mDeg mN
  rw [selectedDiag_eq, roundPt_mk_c0, roundPt_mk_c0]
  decide

theorem cc_AB : corner_coords mA mB =
    [(0, 0), (40, 0), (40, 40), (0, 40), (360, 260), (400, 260), (400, 300), (360, 300)] := by
  unfold corner_coords mA mB
  rw [roundedCorners_mk, roundedCorners_mk]
  rfl

theorem cc_ASq1 : corner_coords mA mSq1 =
    [(0, 0), (40, 0), (40, 40), (0, 40), (200, 0), (242, 0), (242, 42), (200, 42)] := by
  unfold corner_coords mA mSq1
  rw [roundedCorners_mk, roundedCorners_mk]
  rfl

theorem cc_Sq1A : corner_coords mSq1 mA =
    [(200, 0), (242, 0), (242, 42), (200, 42), (0, 0), (40, 0), (40, 40), (0, 40)] := by
  unfold corner_coords mA mSq1
  rw [roundedCorners_mk, roundedCorners_mk]
  rfl

theorem cc_DegN : corner_coords mDeg mN =
    [(100, 100), (100, 100), (100, 100), (100, 100),
     (200, 200), (240, 200), (240, 240), (200, 240)] := by
  unfold corner_coords mDeg mN
  rw [roundedCorners_mk, roundedCorners_mk]
  rfl

theorem tuple_AB : diagTuple mA mB = (0, 0, 400, 300) := by
  unfold diagTuple
  rw [diag_AB, cc_AB]
  decide

theorem tuple_ASq1 : diagTuple mA mSq1 = (0, 0, 242, 42) := by
  unfold diagTuple
  rw [diag_ASq1, cc_ASq1]
  decide

theorem tuple_Sq1A : diagTuple mSq1 mA = (200, 0, 242, 42) := by
  unfold diagTuple
  rw [diag_Sq1A, cc_Sq1A]
  decide

theorem tuple_DegN : diagTuple mDeg mN = (100, 100, 240, 240) := by
  unfold diagTuple
  rw [diag_DegN, cc_DegN]
  decide

theorem h_px_AB : h_px mA mB = 400 := by
  unfold h_px
  rw [tuple_AB]
  decide

theorem w_px_AB : w_px mA mB = 300 := by
  unfold w_px
  rw [tuple_AB]
  decide

theorem h_px_ASq1 : h_px mA mSq1 = 242 := by
  unfold h_px
  rw [tuple_ASq1]
  decide

theorem w_px_ASq1 : w_px mA mSq1 = 42 := by
  unfold w_px
  rw [tuple_ASq1]
  decide

theorem h_px_Sq1A : h_px mSq1 mA = 42 := by
  unfold h_px
  rw [tuple_Sq1A]
  decide

theorem w_px_Sq1A : w_px mSq1 mA = 42 := by
  unfold w_px
  rw [tuple_Sq1A]
  decide

theorem h_px_DegN : h_px mDeg mN = 140 := by
  unfold h_px
  rw [tuple_DegN]
  decide

theorem w_px_DegN : w_px mDeg mN = 140 := by
  unfold w_px
  rw [tuple_DegN]
  decide

theorem calc_AB_20 : calcCore mA mB 20 0 = (8, 6) := by
  have hh : h_in_raw mA mB 20 0 = 1000 / 127 := by
    unfold h_in_raw scale_mm MM_IN_RATIO
    rw [h_px_AB, scale_px_AB]
    norm_num
  have hw : w_in_raw mA mB 20 0 = 750 / 127 := by
    unfold w_in_raw scale_mm MM_IN_RATIO
    rw [w_px_AB, scale_px_AB]
    norm_num
  unfold calcCore
  rw [hh, hw, roundHalfUp_eq (1000 / 127) 16 (by norm_num) (by norm_num),
    roundHalfUp_eq (750 / 127) 12 (by norm_num) (by norm_num)]
  simp only [Prod.mk.injEq]
  constructor <;> norm_num

theorem calc_AB_40 : calcCore mA mB 40 0 = (16, 12) := by
  have hh : h_in_raw mA mB 40 0 = 2000 / 127 := by
    unfold h_in_raw scale_mm MM_IN_RATIO
    rw [h_px_AB, scale_px_AB]
    norm_num
  have hw : w_in_raw mA mB 40 0 = 1500 / 127 := by
    unfold w_in_raw scale_mm MM_IN_RATIO
    rw [w_px_AB, scale_px_AB]
    norm_num
  unfold calcCore
  rw [hh, hw, roundHalfUp_eq (2000 / 127) 32 (by norm_num) (by norm_num),
    roundHalfUp_eq (1500 / 127) 24 (by norm_num) (by norm_num)]
  simp only [Prod.mk.injEq]
  constructor <;> norm_num

theorem calc_ASq1 : calcCore mA mSq1 20 0 = (5, 1) := by
  have hh : h_in_raw mA mSq1 20 0 = 24200 / 5207 := by
    unfold h_in_raw scale_mm MM_IN_RATIO
    rw [h_px_ASq1, scale_px_ASq1]
    norm_num
  have hw : w_in_raw mA mSq1 20 0 = 4200 / 5207 := by
    unfold w_in_raw scale_mm MM_IN_RATIO
    rw [w_px_ASq1, scale_px_ASq1]
    norm_num
  unfold calcCore
  rw [hh, hw, roundHalfUp_eq (24200 / 5207) 10 (by norm_num) (by norm_num),
    roundHalfUp_eq (4200 / 5207) 2 (by norm_num) (by norm_num)]
  simp only [Prod.mk.injEq]
  constructor <;> norm_num

theorem calc_Sq1A : calcCore mSq1 mA 20 0 = (1, 1) := by
  have hh : h_in_raw mSq1 mA 20 0 = 4200 / 5207 := by
    unfold h_in_raw scale_mm MM_IN_RATIO
    rw [h_px_Sq1A, scale_px_Sq1A]
    norm_num
  have hw : w_in_raw mSq1 mA 20 0 = 4200 / 5207 := by
    unfold w_in_raw scale_mm MM_IN_RATIO
    rw [w_px_Sq1A, scale_px_Sq1A]
    norm_num
  unfold calcCore
  rw [hh, hw, roundHalfUp_eq (4200 / 5207) 2 (by norm_num) (by norm_num)]
  simp only [Prod.mk.injEq]
  constructor <;> norm_num

theorem calc_DegN : calcCore mDeg mN 20 0 = (6, 6) := by
  have hh : h_in_raw mDeg mN 20 0 = 700 / 127 := by
    unfold h_in_raw scale_mm MM_IN_RATIO
    rw [h_px_DegN, scale_px_DegN]
    norm_num
  have hw : w_in_raw mDeg mN 20 0 = 700 / 127 := by
    unfold w_in_raw scale_mm MM_IN_RATIO
    rw [w_px_DegN, scale_px_DegN]
    norm_num
  unfold calcCore
  rw [hh, hw, roundHalfUp_eq (700 / 127) 12 (by norm_num) (by norm_num)]
  simp only [Prod.mk.injEq]
  constructor <;> norm_num

/-- Claim C8 (amended): when the markers' rounded first corners have distinct
x coordinates and the 8 pooled rounded corners have pairwise distinct y
values (so no tie-break fires), swapping which marker is passed first does
not change the returned (height, width) pair. -/
theorem calc_swap_invariant (m0 m1 : Marker) (s b : ℝ)
    (hx : (roundPt m0.c0).1 ≠ (roundPt m1.c0).1)
    (hnodup : ((corner_coords m0 m1).map Prod.snd).Nodup) :
    calcCore m1 m0 s b = calcCore m0 m1 s b := by
  have htop : top_marker_coords m1 m0 = top_marker_coords m0 m1 := by
    unfold top_marker_coords
    rcases lt_or_gt_of_ne hx with h | h
    · rw [if_neg (not_lt.2 (le_of_lt h)), if_pos h]
    · rw [if_pos h, if_neg (not_lt.2 (le_of_lt h))]
  have hbot : bottom_marker_coords m1 m0 = bottom_marker_coords m0 m1 := by
    unfold bottom_marker_coords
    rcases lt_or_gt_of_ne hx with h | h
    · rw [if_neg (not_lt.2 (le_of_lt h)), if_pos h]
    · rw [if_pos h, if_neg (not_lt.2 (le_of_lt h))]
  have hdiag : selectedDiag m1 m0 = selectedDiag m0 m1 := by
    unfold selectedDiag
    rw [htop, hbot]
  have hperm : (corner_coords m0 m1).Perm (corner_coords m1 m0) := by
    unfold corner_coords
    exact List.perm_append_comm
  have hlen : 3 ≤ (corner_coords m0 m1).length := by
    simp [corner_coords, roundedCorners]
  have htuple : diagTuple m1 m0 = diagTuple m0 m1 := by
    unfold diagTuple
    rw [hdiag, get_diff_perm hperm hnodup hlen]
  have hscale : scale_px m1 m0 = scale_px m0 m1 := by
    unfold scale_px
    ring
  unfold calcCore h_in_raw w_in_raw scale_mm h_px w_px
  rw [htuple, hscale]

/-- Witness for the amended swap-invariance claim: two tilted square markers
with distinct anchor x and pairwise distinct pooled y values. -/
theorem calc_swap_invariant_witness :
    (roundPt mT0.c0).1 ≠ (roundPt mT1.c0).1 ∧
    ((corner_coords mT0 mT1).map Prod.snd).Nodup ∧
    calcCore mT1 mT0 20 0 = calcCore mT0 mT1 20 0 := by
  have h1 : (roundPt mT0.c0).1 ≠ (roundPt mT1.c0).1 := by
    unfold mT0 mT1
    rw [roundPt_mk_c0, roundPt_mk_c0]
    decide
  have h2 : ((corner_coords mT0 mT1).map Prod.snd).Nodup := by
    unfold corner_coords mT0 mT1
    rw [roundedCorners_mk, roundedCorners_mk]
    decide
  exact ⟨h1, h2, calc_swap_invariant mT0 mT1 20 0 h1 h2⟩

/-- Claim C8, counterexample: two axis-aligned squares sharing the top edge
y value: the pooled minimal y is attained in both markers, so swapping the
argument order moves the first occurrence of the tied minimum and changes the
result from (5, 1) to (1, 1). -/
theorem calc_swap_counterexample :
    calcCore mA mSq1 20 0 = (5, 1) ∧
    calcCore mSq1 mA 20 0 = (1, 1) ∧
    calcCore mA mSq1 20 0 ≠ calcCore mSq1 mA 20 0 := by
  refine ⟨calc_ASq1, calc_Sq1A, ?_⟩
  rw [calc_ASq1, calc_Sq1A]
  intro h
  have h2 := congrArg Prod.fst h
  norm_num at h2

/-- Claim C5: the spec's concrete scenario. Scale 40 px, marker 20 mm,
diagonal x-extent 400 px and y-extent 300 px, ratio 25.4 mm per inch, border
0: unit-per-pixel 0.5 mm/px, height taken from the x-spread and width from
the y-spread, final result height 8.0 and width 6.0 inches. -/
theorem concrete_scenario :
    scale_px mA mB = 40 ∧
    scale_mm mA mB 20 = 1 / 2 ∧
    selectedDiag mA mB = Diag.TLBR ∧
    diagTuple mA mB = (0, 0, 400, 300) ∧
    h_px mA mB = 400 ∧
    w_px mA mB = 300 ∧
    calculate_two_markers [mA, mB] 20 0 = Except.ok (8, 6) := by
  refine ⟨scale_px_AB, ?_, diag_AB, tuple_AB, h_px_AB, w_px_AB, ?_⟩
  · unfold scale_mm
    rw [scale_px_AB]
    norm_num
  · show Except.ok (calcCore mA mB 20 0) = Except.ok (8, 6)
    rw [calc_AB_20]

/-- Claim C7 at the failing input: the degenerate marker (all corners equal)
has scale 0, yet the pipeline performs no degenerate-geometry check: paired
with a healthy marker it silently returns the numeric result (6, 6). -/
theorem degenerate_marker_still_numeric :
    get_scale mDeg = 0 ∧
    calculate_two_markers [mDeg, mN] 20 0 = Except.ok (6, 6) := by
  refine ⟨get_scale_mDeg, ?_⟩
  show Except.ok (calcCore mDeg mN 20 0) = Except.ok (6, 6)
  rw [calc_DegN]

/-- Claim C9, counterexample: doubling the reported marker size from 20 mm to
40 mm with identical pixel geometry doubles the result from (8, 6) to
(16, 12) instead of halving it. -/
theorem doubling_size_counterexample :
    calcCore mA mB 20 0 = (8, 6) ∧
    calcCore mA mB 40 0 = (16, 12) ∧
    ¬ ((calcCore mA mB 40 0).1 = (calcCore mA mB 20 0).1 / 2 ∧
       (calcCore mA mB 40 0).2 = (calcCore mA mB 20 0).2 / 2) := by
  refine ⟨calc_AB_20, calc_AB_40, ?_⟩
  rw [calc_AB_20, calc_AB_40]
  intro h
  have h2 := h.1
  norm_num at h2

/-- Witness for the rounding claim at the concrete scenario markers. -/
theorem calc_rounds_up_half_witness :
    (0 : ℝ) ≤ 20 ∧ (0 : ℝ) ≤ 0 ∧ 0 < get_scale mA ∧ 0 < get_scale mB ∧
    (((∃ k : ℕ, (calcCore mA mB 20 0).1 = (k : ℝ) / 2) ∧
      h_in_raw mA mB 20 0 ≤ (calcCore mA mB 20 0).1 ∧
      (calcCore mA mB 20 0).1 - h_in_raw mA mB 20 0 < 1 / 2) ∧
    ((∃ k : ℕ, (calcCore mA mB 20 0).2 = (k : ℝ) / 2) ∧
      w_in_raw mA mB 20 0 ≤ (calcCore mA mB 20 0).2 ∧
      (calcCore mA mB 20 0).2 - w_in_raw mA mB 20 0 < 1 / 2)) := by
  have h0 : 0 < get_scale mA := by
    rw [get_scale_mA]
    norm_num
  have h1 : 0 < get_scale mB := by
    rw [get_scale_mB]
    norm_num
  exact ⟨by norm_num, le_refl 0, h0, h1,
    calc_rounds_up_half mA mB 20 0 (by norm_num) (le_refl 0) h0 h1⟩

/-- The 8 points with pairwise distinct y values used to witness the amended
selection claim. -/
def distinctExample : List (ℤ × ℤ) :=
  [(0, 1), (1, 2), (2, 3), (3, 4), (4, 5), (5, 6), (6, 7), (7, 8)]

/-- Witness for the amended selection claim on a configuration with unique
minimal and maximal y values. -/
theorem get_diff_matches_selector_witness :
    distinctExample.length = 8 ∧
    (distinctExample.map Prod.snd).count (minD (distinctExample.map Prod.snd)) = 1 ∧
    (distinctExample.map Prod.snd).count (maxD (distinctExample.map Prod.snd)) = 1 ∧
    get_diff_two_markers_px distinctExample Diag.TLBR
      = selectorSpec distinctExample Diag.TLBR :=
  ⟨by decide, by decide, by decide,
    get_diff_matches_selector distinctExample Diag.TLBR (by decide) (by decide) (by decide)⟩

/-- The 8-point configuration with both the minimal y value (0) and the
maximal y value (7) duplicated, used to witness the tie claim. -/
def tieExampleB : List (ℤ × ℤ) :=
  [(0, 0), (10, 0), (1, 2), (2, 3), (3, 4), (4, 5), (5, 7), (6, 7)]

/-- Witness for the tie claim: with duplicated minimal and maximal y values
the top and bottom extremes are the first points attaining them. -/
theorem get_diff_tie_first_occurrence_witness :
    tieExampleB.length = 8 ∧
    2 ≤ (tieExampleB.map Prod.snd).count (minD (tieExampleB.map Prod.snd)) ∧
    2 ≤ (tieExampleB.map Prod.snd).count (maxD (tieExampleB.map Prod.snd)) ∧
    ((get_diff_two_markers_px tieExampleB Diag.TLBR).1,
      (get_diff_two_markers_px tieExampleB Diag.TLBR).2.1)
      = pt_at tieExampleB (minD (tieExampleB.map Prod.snd)) ∧
    ((get_diff_two_markers_px tieExampleB Diag.TLBR).2.2.1,
      (get_diff_two_markers_px tieExampleB Diag.TLBR).2.2.2)
      = pt_at tieExampleB (maxD (tieExampleB.map Prod.snd)) :=
  ⟨by decide, by decide, by decide,
    (get_diff_tie_first_occurrence tieExampleB Diag.TLBR (by decide)).1 (by decide),
    (get_diff_tie_first_occurrence tieExampleB Diag.TLBR (by decide)).2 (by decide)⟩

/-- Witness for the classification claim at the concrete scenario markers. -/
theorem classification_rule_witness :
    (roundPt mA.c0).1 < (roundPt mB.c0).1 ∧
    (roundPt mA.c0).2 < (roundPt mB.c0).2 ∧
    (selectedDiag mA mB = Diag.TLBR ↔ (roundPt mA.c0).2 < (roundPt mB.c0).2) ∧
    selectedDiag mA mB = Diag.TLBR ∧
    selectedDiag (setC0x mA mB.c0.1) (setC0x mB mA.c0.1) = Diag.TRBL := by
  have hx : (roundPt mA.c0).1 < (roundPt mB.c0).1 := by
    unfold mA mB
    rw [roundPt_mk_c0, roundPt_mk_c0]
    decide
  have hy : (roundPt mA.c0).2 < (roundPt mB.c0).2 := by
    unfold mA mB
    rw [roundPt_mk_c0, roundPt_mk_c0]
    decide
  obtain ⟨p1, _, p3⟩ := classification_rule mA mB
  exact ⟨hx, hy, p1 hx, (p3 hx hy).1, (p3 hx hy).2⟩

end TwoMarker
